import Mathlib

/-!
Verification development for the ccx2paraview conversion driver
(src/ccx2paraview/main.py).

The driver stages the input .frd file into the output folder, parses it,
and for each distinct result time value invokes the selected writer
(legacy vtk or XML vtu), writing a PVD series index when more than one
time value exists and the XML writer was used.

The embedding below translates `Converter.__init__`, `Converter.run`,
the `output_folder` and `output_file` properties, and the `__main__`
CLI dispatch from the source.  The Python standard-library functions the
driver calls (`os.path.split`, `os.path.dirname`, `os.path.join`,
`os.path.normpath` inside `os.path.abspath`, `str.split`, `str.replace`,
zero-padded integer formatting, `sorted`, `set`, dict insertion) are
modelled faithfully on `List Char` and `String`.

The FRDParser, VTKWriter, VTUWriter and PVDWriter modules are imported by
main.py but are not part of the repository snapshot under src/; they are
modelled from the spec as the interface surface that `Converter.run`
touches: a parse result exposing the truthiness of `node_block` and
`elem_block` and the `value` (time) of each result block, and writers
that are deterministic functions of the parse result and target time.
`Converter.run` is embedded as a function producing the ordered list of
observable effects (directory creation, file staging, parsing, logging,
writer invocations), so each claim about "output files produced" is a
statement about the write effects of the run.
-/

/- ===================  Python string/list primitives  =================== -/

/-- Model of Python `str.split(sep)` for a single-character separator:
splits on every occurrence, keeping empty pieces, so the result always
has (number of separators + 1) pieces. -/
def splitChar (c : Char) : List Char → List (List Char)
  | [] => [[]]
  | x :: xs =>
    let r := splitChar c xs
    if x = c then [] :: r else (x :: r.headI) :: r.tail

/-- Recursion engine for the Python `str.replace` model: scan left to
right, replacing every non-overlapping occurrence of the pattern.  The
extra fuel argument (instantiated with the string length, an upper bound
on the number of steps) only makes the recursion structural so the
kernel can evaluate it; `replaceListFuel_congr` shows the result does
not depend on the fuel. -/
def replaceListFuel (pat rep : List Char) : Nat → List Char → List Char
  | _, [] => []
  | 0, s => s
  | fuel + 1, c :: cs =>
    if pat ≠ [] ∧ pat <+: (c :: cs) then
      rep ++ replaceListFuel pat rep fuel ((c :: cs).drop pat.length)
    else
      c :: replaceListFuel pat rep fuel cs

/-- Model of Python `str.replace(pat, rep)` for a nonempty pattern.  The
driver only ever calls replace with the pattern ".frd", which is
nonempty; for an empty pattern this model is the identity. -/
def replaceList (pat rep : List Char) (s : List Char) : List Char :=
  replaceListFuel pat rep s.length s

/-- Python `str.replace` lifted to `String`. -/
def pyReplace (s pat rep : String) : String :=
  String.mk (replaceList pat.data rep.data s.data)

/-- Digits of a natural number, as Python `str(n)` (via `toString`). -/
def zfill (w n : Nat) : String :=
  String.mk (List.replicate (w - (toString n).length) '0' ++ (toString n).data)

/- ===================  Python os.path (posixpath) model  =================== -/

/-- Everything after the last '/' of the list (the whole list when no '/'
occurs); this is `tail` in CPython posixpath.split. -/
def afterLastSlash (l : List Char) : List Char :=
  (l.reverse.takeWhile (fun ch => ch ≠ '/')).reverse

/-- Everything up to and including the last '/' (empty when no '/'
occurs); this is `head` in CPython posixpath.split before stripping. -/
def upToLastSlash (l : List Char) : List Char :=
  l.take (l.length - (afterLastSlash l).length)

/-- Model of Python `os.path.split(p)[-1]` (posixpath basename part). -/
def pyBasename (p : String) : String :=
  String.mk (afterLastSlash p.data)

/-- Model of Python `os.path.dirname` (posixpath): the part before the
last '/', with trailing slashes stripped unless it is all slashes. -/
def pyDirname (p : String) : String :=
  let head := upToLastSlash p.data
  if head ≠ [] ∧ head.any (fun ch => ch ≠ '/') then
    String.mk ((head.reverse.dropWhile (fun ch => ch = '/')).reverse)
  else
    String.mk head

/-- Model of the two-argument Python `os.path.join` (posixpath): the
second path wins when absolute; otherwise it is appended, inserting '/'
unless the first part is empty or already ends with '/'. -/
def pyJoin (a b : String) : String :=
  if b.data.head? = some '/' then b
  else if a.data = [] ∨ a.data.getLast? = some '/' then String.mk (a.data ++ b.data)
  else String.mk (a.data ++ '/' :: b.data)

/-- Model of CPython posixpath.normpath: collapse repeated separators and
up-level references, preserving the special 1-slash/2-slash root. -/
def pyNormpath (p : String) : String :=
  let initialSlashes : Nat :=
    if p.data.take 1 = ['/'] then
      if p.data.take 2 = ['/', '/'] ∧ p.data.take 3 ≠ ['/', '/', '/'] then 2 else 1
    else 0
  let comps := (splitChar '/' p.data).map String.mk
  let newComps := comps.foldl (fun acc comp =>
    if comp = "" ∨ comp = "." then acc
    else if comp ≠ ".." ∨ (initialSlashes = 0 ∧ acc = []) ∨ acc.getLast? = some ".." then
      acc ++ [comp]
    else if acc ≠ [] then acc.dropLast else acc) []
  let joined := String.intercalate "/" newComps
  let res := String.mk (List.replicate initialSlashes '/') ++ joined
  if res = "" then "." else res

/-- Model of Python `os.path.abspath` relative to a working directory:
join with the cwd when the path is relative, then normalize. -/
def pyAbspath (cwd p : String) : String :=
  if p.data.head? = some '/' then pyNormpath p else pyNormpath (pyJoin cwd p)

/- ===================  Parse result and writer interface  =================== -/

/-- Modelled from the spec: one result block of the FRDParser output.
The parser (FRDParser module) is not under src/; `Converter.run` reads
only the `value` attribute (the time value of the increment, a float in
the source, modelled as a rational) of each block. -/
structure ResultBlock where
  value : Rat
deriving DecidableEq, Repr

/-- Modelled from the spec: the object returned by `FRDParser.Parse`.
Only the attributes `Converter.run` touches are kept: the truthiness of
`node_block` and `elem_block` (whether a node block / element block was
found) and the list of result blocks. -/
structure ParseResult where
  node_block : Bool
  elem_block : Bool
  result_blocks : List ResultBlock
deriving DecidableEq, Repr

/- ===================  Converter  =================== -/

/-- The `Converter` object of main.py: the constructor arguments plus the
fields `__init__` derives (`file_name` and `ext` are the first and second
dot-separated segments of the basename of `file_path`). -/
structure Converter where
  file_path : String
  file_name : String
  ext : String
  fmt : String
  output_folder_opt : Option String
deriving DecidableEq, Repr

/-- Model of `Converter.__init__`: `temp = os.path.split(file_path)[-1].split('.')`,
`file_name = temp[0]`, `ext = temp[1]`.  When the basename holds no dot,
`temp[1]` raises IndexError and no Converter is produced (`none`). -/
def Converter.init (file_path fmt : String) (output_folder : Option String) :
    Option Converter :=
  let temp := (splitChar '.' (pyBasename file_path).data).map String.mk
  match temp with
  | t0 :: t1 :: _ => some ⟨file_path, t0, t1, fmt, output_folder⟩
  | _ => none

/-- The `output_folder` property: a `results` subdirectory next to the
input when no folder was given, otherwise the absolute form of the given
folder (`os.path.abspath` needs the working directory `cwd`). -/
def Converter.output_folder (c : Converter) (cwd : String) : String :=
  match c.output_folder_opt with
  | none => pyJoin (pyDirname c.file_path) "results"
  | some f => pyAbspath cwd f

/-- The `output_file` property: the staged copy path
`os.path.join(output_folder, file_name + '.' + ext)`. -/
def Converter.output_file (c : Converter) (cwd : String) : String :=
  pyJoin (c.output_folder cwd) (c.file_name ++ "." ++ c.ext)

/- ===================  The run and its observable effects  =================== -/

/-- One observable effect of `Converter.run`, in program order.  Info
messages that merely display a path (the source formats them through
`os.path.relpath` for logging) carry the path itself.  A writer
invocation records the target file name and the time value passed
(`none` is Python `None`, the no-time-increments case). -/
inductive Effect where
  | makedirs (dir : String)
  | copy (src dst : String)
  | logInfoPath (msg : String) (path : String)
  | parseFRD (path : String)
  | logInfo (msg : String)
  | logWarning (msg : String)
  | writeVTK (file_name : String) (time : Option Rat)
  | writeVTU (file_name : String) (time : Option Rat)
  | writePVD (file_name : String) (times_names : List (Rat × String))
deriving DecidableEq, Repr

/-- Model of Python `sorted(set(xs))` on the block time values: the
distinct values in ascending order. -/
def pySortedSet (xs : List Rat) : List Rat :=
  List.insertionSort (· ≤ ·) xs.dedup

/-- Model of Python `sorted(xs)` on time values. -/
def pySorted (xs : List Rat) : List Rat :=
  List.insertionSort (· ≤ ·) xs

/-- Model of a Python dict insertion `d[k] = v` on an association list in
insertion order: overwrite in place when the key exists, else append. -/
def dictInsert (d : List (Rat × String)) (k : Rat) (v : String) : List (Rat × String) :=
  if d.any (fun kv => kv.1 = k) then
    d.map (fun kv => if kv.1 = k then (k, v) else kv)
  else d ++ [(k, v)]

/-- The per-increment extension computed inside the loop of
`Converter.run`: `'.{:0{width}}.{}'.format(counter, fmt, width=len(str(l)))`
when the model has many time steps, else `'.{}'.format(fmt)`. -/
def extFor (l : Nat) (fmt : String) (counter : Nat) : String :=
  if 1 < l then "." ++ zfill (toString l).length counter ++ "." ++ fmt
  else "." ++ fmt

/-- The loop of `Converter.run` that fills the `times_names` dict:
for each time (already sorted) compute the extension from the running
counter and map the time to `output_file.replace('.frd', ext)`. -/
def mkTimesNames (ofile fmt : String) (l : Nat) :
    List Rat → Nat → List (Rat × String) → List (Rat × String)
  | [], _, d => d
  | t :: ts, counter, d =>
    mkTimesNames ofile fmt l ts (counter + 1)
      (dictInsert d t (pyReplace ofile ".frd" (extFor l fmt counter)))

/-- The write loop: for each `(time, file_name)` item of `times_names`
(dict iteration order = insertion order) log the target and invoke the
writer matching the selected format. -/
def writeLoop (fmt : String) : List (Rat × String) → List Effect
  | [] => []
  | (t, n) :: rest =>
    Effect.logInfoPath "Writing" n ::
      ((if fmt = "vtk" then [Effect.writeVTK n (some t)] else []) ++
       (if fmt = "vtu" then [Effect.writeVTU n (some t)] else []) ++
       writeLoop fmt rest)

/-- Model of `Converter.run`, as the ordered list of its observable
effects.  `p` is the result of `FRDParser.Parse(self.output_file)` on the
staged copy.  Mirrors main.py lines 49-104: create the output folder,
stage the input, parse; when mesh data is present, build the sorted
distinct time list, name one output per time (zero-padded counter suffix
when more than one), invoke the selected writer per time, and write the
PVD index when more than one time and the XML writer was used; a mesh
with no result blocks gets a single untimed output; an empty mesh only
logs a warning. -/
def Converter.run (c : Converter) (cwd : String) (p : ParseResult) : List Effect :=
  Effect.makedirs (c.output_folder cwd) ::
  Effect.copy c.file_path (c.output_file cwd) ::
  Effect.logInfoPath "Parsing" (c.output_file cwd) ::
  Effect.parseFRD (c.output_file cwd) ::
  (if p.node_block && p.elem_block then
    let times := pySortedSet (p.result_blocks.map ResultBlock.value)
    let l := times.length
    if l ≠ 0 then
      let times_names := mkTimesNames (c.output_file cwd) c.fmt l (pySorted times) 1 []
      Effect.logInfo (toString l ++ " time increment" ++ (if 2 ≤ l then "s" else "")) ::
        (writeLoop c.fmt times_names ++
         (if 1 < l ∧ c.fmt = "vtu" then
            [Effect.writePVD (pyReplace (c.output_file cwd) ".frd" ".pvd") times_names]
          else []))
    else
      Effect.logWarning "No time increments!" ::
        (let file_name := String.mk ((c.output_file cwd).data.take
            ((c.output_file cwd).data.length - 3)) ++ c.fmt
         (if c.fmt = "vtk" then [Effect.writeVTK file_name none] else []) ++
         (if c.fmt = "vtu" then [Effect.writeVTU file_name none] else []))
  else
    [Effect.logWarning "File is empty!"])

/- ===================  CLI dispatch (__main__)  =================== -/

/-- Outcome of the `__main__` block for one invocation, after argparse:
either a Converter was created and `run()` invoked, or the wrong-format
error message was printed and nothing converted, or `Converter.__init__`
itself failed (IndexError on a dotless basename) before any conversion. -/
inductive CLIOutcome where
  | ranConversion (c : Converter)
  | printedError (msg : String)
  | initError
deriving DecidableEq, Repr

/-- True exactly when the outcome is a conversion run. -/
def CLIOutcome.isConversionRun : CLIOutcome → Bool
  | .ranConversion _ => true
  | _ => false

/-- Model of the `__main__` dispatch: formats other than vtk and vtu
print an error and create no Converter; otherwise a Converter is built
(with the default output folder) and run. -/
def cliMain (filename fmt : String) : CLIOutcome :=
  if fmt = "vtk" ∨ fmt = "vtu" then
    match Converter.init filename fmt none with
    | some c => .ranConversion c
    | none => .initError
  else
    .printedError ("ERROR! Wrong format \"" ++ fmt ++ "\". Choose one of: vtk, vtu.")

/- ===================  Observers on the effect trace  =================== -/

/-- A vtk or vtu writer invocation carrying a concrete time value
(a per-timestep output), as `(file name, time)`. -/
def Effect.timedWrite? : Effect → Option (String × Rat)
  | .writeVTK n (some t) => some (n, t)
  | .writeVTU n (some t) => some (n, t)
  | _ => none

/-- A vtu writer invocation carrying a concrete time value. -/
def Effect.vtuTimed? : Effect → Option (String × Rat)
  | .writeVTU n (some t) => some (n, t)
  | _ => none

/-- Any vtk or vtu writer invocation, as `(file name, optional time)`. -/
def Effect.anyWrite? : Effect → Option (String × Option Rat)
  | .writeVTK n t => some (n, t)
  | .writeVTU n t => some (n, t)
  | _ => none

/-- A PVD series-index write, as `(file name, listed pairs)`. -/
def Effect.pvdWrite? : Effect → Option (String × List (Rat × String))
  | .writePVD n tn => some (n, tn)
  | _ => none

/-- The pairs listed by the PVD writes of a trace (concatenated; the run
emits at most one PVD write). -/
def pvdPairs (effs : List Effect) : List (Rat × String) :=
  (effs.filterMap Effect.pvdWrite?).foldr (fun x acc => x.2 ++ acc) []

/-- Closed form of the `times_names` association list the run builds:
the k-th listed time (counter starting at `k0`) maps to
`output_file.replace('.frd', extFor l fmt k)`. -/
def namesFrom (ofile fmt : String) (l : Nat) : Nat → List Rat → List (Rat × String)
  | _, [] => []
  | k, t :: ts =>
    (t, pyReplace ofile ".frd" (extFor l fmt k)) :: namesFrom ofile fmt l (k + 1) ts

/-- The pattern `.frd` that the driver replaces in the staged path. -/
def frdPat : List Char := ['.', 'f', 'r', 'd']

/-- The staged path ends with ".frd" and contains no other occurrence of
".frd" (every non-final occurrence lies inside `dropLast`). -/
def onlyFinalFrd (s : String) : Prop :=
  frdPat <:+ s.data ∧ ¬ frdPat <:+: s.data.dropLast

instance (s : String) : Decidable (onlyFinalFrd s) := by
  unfold onlyFinalFrd; infer_instance

/- ===================  Filesystem model for the staging/writing run  ====== -/

/-- Modelled from the spec: the writer modules (VTKWriter, VTUWriter,
PVDWriter) are not under src/.  Per the spec they are deterministic
single-pass serializers of the in-memory data, so their file contents
are abstracted as arbitrary functions of exactly the arguments main.py
passes them; theorems quantify over all such writer functions. -/
structure Writers where
  vtk : ParseResult → Option Rat → String
  vtu : ParseResult → Option Rat → String
  pvd : List (Rat × String) → String

/-- A file system: contents by path. -/
def FS : Type := String → Option String

/-- Writing one file (a fully-written output, per the spec each output
file is either fully written or not created). -/
def fsWrite (fs : FS) (k v : String) : FS :=
  fun q => if q = k then some v else fs q

/-- The `(target path, content)` pair a writer invocation produces, given
writer functions and the parse result the run passed to the writer. -/
def Effect.writeContent (w : Writers) (p : ParseResult) : Effect → Option (String × String)
  | .writeVTK n t => some (n, w.vtk p t)
  | .writeVTU n t => some (n, w.vtu p t)
  | .writePVD n tn => some (n, w.pvd tn)
  | _ => none

/-- Apply a list of file writes in order. -/
def execWrites (ws : List (String × String)) (fs : FS) : FS :=
  ws.foldl (fun f kv => fsWrite f kv.1 kv.2) fs

/-- The file writes of one run, in order, with contents. -/
def runWrites (w : Writers) (c : Converter) (cwd : String) (p : ParseResult) :
    List (String × String) :=
  (c.run cwd p).filterMap (Effect.writeContent w p)

/-- One full run against a file system: `shutil.copy` stages the input at
`output_file` (raising SameFileError when source and destination are the
same path and FileNotFoundError when the input is missing, both modelled
as `none`), `FRDParser.Parse` reads the staged copy (whose content is
exactly the copied content), and every writer output is applied in
program order. -/
def runFS (w : Writers) (parseF : String → ParseResult) (c : Converter) (cwd : String)
    (fs : FS) : Option FS :=
  if c.file_path = c.output_file cwd then none
  else
    match fs c.file_path with
    | none => none
    | some content =>
      let fs1 := fsWrite fs (c.output_file cwd) content
      let p := parseF content
      some (execWrites (runWrites w c cwd p) fs1)

/-- The success value of `runFS` (defined whenever the copy succeeds). -/
def runCore (w : Writers) (parseF : String → ParseResult) (c : Converter) (cwd : String)
    (fs : FS) (content : String) : FS :=
  execWrites (runWrites w c cwd (parseF content)) (fsWrite fs (c.output_file cwd) content)

/- ===================  Basic lemmas  =================== -/

theorem string_data_inj {a b : String} (h : a.data = b.data) : a = b :=
  congrArg String.mk h

theorem string_append_data (a b : String) : (a ++ b).data = a.data ++ b.data := rfl

theorem string_mk_data (l : List Char) : (String.mk l).data = l := rfl

theorem replaceListFuel_nil (pat rep : List Char) (f : Nat) :
    replaceListFuel pat rep f [] = [] := by
  cases f <;> rfl

theorem replaceListFuel_succ_cons (pat rep : List Char) (f : Nat) (c : Char)
    (cs : List Char) :
    replaceListFuel pat rep (f + 1) (c :: cs) =
      if pat ≠ [] ∧ pat <+: (c :: cs) then
        rep ++ replaceListFuel pat rep f ((c :: cs).drop pat.length)
      else c :: replaceListFuel pat rep f cs := rfl

/-- The fuel does not matter as long as it bounds the string length. -/
theorem replaceListFuel_congr (pat rep : List Char) :
    ∀ f1 f2 s, s.length ≤ f1 → s.length ≤ f2 →
      replaceListFuel pat rep f1 s = replaceListFuel pat rep f2 s := by
  intro f1
  induction f1 with
  | zero =>
    intro f2 s h1 _
    have hs : s = [] := List.length_eq_zero.mp (Nat.le_zero.mp h1)
    subst hs
    rw [replaceListFuel_nil, replaceListFuel_nil]
  | succ g ih =>
    intro f2 s h1 h2
    cases s with
    | nil => rw [replaceListFuel_nil, replaceListFuel_nil]
    | cons c cs =>
      cases f2 with
      | zero => simp at h2
      | succ g2 =>
        rw [replaceListFuel_succ_cons, replaceListFuel_succ_cons]
        by_cases hcond : pat ≠ [] ∧ pat <+: (c :: cs)
        · rw [if_pos hcond, if_pos hcond]
          have hp : 1 ≤ pat.length := List.length_pos.mpr hcond.1
          have hd : ((c :: cs).drop pat.length).length ≤ g := by
            simp only [List.length_drop, List.length_cons]
            simp only [List.length_cons] at h1
            omega
          have hd2 : ((c :: cs).drop pat.length).length ≤ g2 := by
            simp only [List.length_drop, List.length_cons]
            simp only [List.length_cons] at h2
            omega
          rw [ih g2 _ hd hd2]
        · rw [if_neg hcond, if_neg hcond]
          have hcl : cs.length ≤ g := by
            simp only [List.length_cons] at h1
            omega
          have hcl2 : cs.length ≤ g2 := by
            simp only [List.length_cons] at h2
            omega
          rw [ih g2 cs hcl hcl2]

theorem replaceList_nil (pat rep : List Char) : replaceList pat rep [] = [] := rfl

theorem replaceList_cons (pat rep : List Char) (c : Char) (cs : List Char) :
    replaceList pat rep (c :: cs) =
      if pat ≠ [] ∧ pat <+: (c :: cs) then
        rep ++ replaceList pat rep ((c :: cs).drop pat.length)
      else c :: replaceList pat rep cs := by
  unfold replaceList
  rw [show (c :: cs).length = cs.length + 1 from rfl, replaceListFuel_succ_cons]
  by_cases hcond : pat ≠ [] ∧ pat <+: (c :: cs)
  · rw [if_pos hcond, if_pos hcond]
    have hp : 1 ≤ pat.length := List.length_pos.mpr hcond.1
    rw [replaceListFuel_congr pat rep cs.length ((c :: cs).drop pat.length).length
      ((c :: cs).drop pat.length) (by simp only [List.length_drop, List.length_cons]; omega)
      (Nat.le_refl _)]
  · rw [if_neg hcond, if_neg hcond]

/-- Python replace leaves a string without any occurrence of the pattern
unchanged. -/
theorem replaceList_of_not_infix (pat rep : List Char) :
    ∀ s : List Char, ¬ pat <:+: s → replaceList pat rep s = s := by
  intro s
  induction s with
  | nil => intro _; exact replaceList_nil pat rep
  | cons c cs ih =>
    intro h
    rw [replaceList_cons, if_neg (fun hc => h hc.2.isInfix),
      ih (fun hcs => h (hcs.trans (List.suffix_cons c cs).isInfix))]

/-- Python replace on a string that ends with the pattern and holds no
other occurrence of it replaces exactly that final occurrence. -/
theorem replaceList_final (pat rep : List Char) (hpat : pat ≠ []) :
    ∀ pre : List Char, ¬ pat <:+: (pre ++ pat.dropLast) →
      replaceList pat rep (pre ++ pat) = pre ++ rep := by
  intro pre
  induction pre with
  | nil =>
    intro _
    simp only [List.nil_append]
    cases hp : pat with
    | nil => exact absurd hp hpat
    | cons a as =>
      subst hp
      rw [replaceList_cons, if_pos ⟨hpat, List.prefix_refl _⟩, List.drop_length,
        replaceList_nil, List.append_nil]
  | cons c pre' ih =>
    intro h
    have hlast := List.dropLast_append_getLast hpat
    have hxlen : pat.length ≤ (c :: (pre' ++ pat.dropLast)).length := by
      have h1 : 1 ≤ pat.length := List.length_pos.mpr hpat
      simp only [List.length_cons, List.length_append, List.length_dropLast]
      omega
    have hnp : ¬ pat <+: (c :: (pre' ++ pat)) := by
      intro hp
      apply h
      have heq : c :: (pre' ++ pat) =
          (c :: (pre' ++ pat.dropLast)) ++ [pat.getLast hpat] := by
        simp only [List.cons_append, List.append_assoc]
        rw [hlast]
      have hpt : pat = List.take pat.length (c :: (pre' ++ pat)) :=
        List.prefix_iff_eq_take.mp hp
      rw [heq, List.take_append_of_le_length hxlen] at hpt
      have hp2 : pat <+: (c :: (pre' ++ pat.dropLast)) :=
        List.prefix_iff_eq_take.mpr hpt
      simpa using hp2.isInfix
    have hrest : ¬ pat <:+: (pre' ++ pat.dropLast) := by
      intro hi
      exact h (hi.trans (List.suffix_cons c _).isInfix)
    calc replaceList pat rep ((c :: pre') ++ pat)
        = c :: replaceList pat rep (pre' ++ pat) := by
          rw [List.cons_append, replaceList_cons, if_neg (fun hc => hnp hc.2)]
      _ = c :: (pre' ++ rep) := by rw [ih hrest]
      _ = (c :: pre') ++ rep := by simp

theorem pySortedSet_nodup (xs : List Rat) : (pySortedSet xs).Nodup :=
  (List.perm_insertionSort _ _).symm.nodup (List.nodup_dedup xs)

theorem pySortedSet_sorted_le (xs : List Rat) :
    List.Sorted (· ≤ ·) (pySortedSet xs) :=
  List.sorted_insertionSort _ _

theorem pySortedSet_sorted_lt (xs : List Rat) :
    List.Sorted (· < ·) (pySortedSet xs) :=
  (pySortedSet_sorted_le xs).lt_of_le (pySortedSet_nodup xs)

theorem pySorted_pySortedSet (xs : List Rat) :
    pySorted (pySortedSet xs) = pySortedSet xs :=
  (pySortedSet_sorted_le xs).insertionSort_eq

/- ===================  Characterizing the run  =================== -/

/-- The TimeSeries the run computes: `sorted(set(b.value for b in result_blocks))`. -/
def runTimes (p : ParseResult) : List Rat :=
  pySortedSet (p.result_blocks.map ResultBlock.value)

theorem mkTimesNames_eq (ofile fmt : String) (l : Nat) :
    ∀ (ts : List Rat) (k : Nat) (d : List (Rat × String)),
      ts.Nodup → (∀ t ∈ ts, ∀ kv ∈ d, kv.1 ≠ t) →
      mkTimesNames ofile fmt l ts k d = d ++ namesFrom ofile fmt l k ts := by
  intro ts
  induction ts with
  | nil => intro k d _ _; simp [mkTimesNames, namesFrom]
  | cons t ts ih =>
    intro k d hnd hf
    have hnc := List.nodup_cons.mp hnd
    have hins : dictInsert d t (pyReplace ofile ".frd" (extFor l fmt k)) =
        d ++ [(t, pyReplace ofile ".frd" (extFor l fmt k))] := by
      rw [dictInsert, if_neg]
      intro hany
      obtain ⟨kv, hkv, hkv1⟩ := List.any_eq_true.mp hany
      exact hf t (by simp) kv hkv (by simpa using hkv1)
    rw [mkTimesNames, hins, ih (k + 1) _ hnc.2]
    · simp [namesFrom]
    · intro t' ht' kv hkv
      rcases List.mem_append.mp hkv with hd | hone
      · exact hf t' (by simp [ht']) kv hd
      · have hkv2 : kv = (t, pyReplace ofile ".frd" (extFor l fmt k)) := by
          simpa using hone
        rw [hkv2]
        intro hc
        apply hnc.1
        rw [show t = t' from hc]
        exact ht'

theorem namesFrom_length (ofile fmt : String) (l : Nat) :
    ∀ (ts : List Rat) (k : Nat), (namesFrom ofile fmt l k ts).length = ts.length := by
  intro ts
  induction ts with
  | nil => intro k; simp [namesFrom]
  | cons t ts ih => intro k; simp [namesFrom, ih]

theorem namesFrom_getElem? (ofile fmt : String) (l : Nat) :
    ∀ (ts : List Rat) (k i : Nat),
      (namesFrom ofile fmt l k ts)[i]? =
        ts[i]?.map (fun t => (t, pyReplace ofile ".frd" (extFor l fmt (k + i)))) := by
  intro ts
  induction ts with
  | nil => intro k i; simp [namesFrom]
  | cons t ts ih =>
    intro k i
    cases i with
    | zero => simp [namesFrom]
    | succ n =>
      simp only [namesFrom, List.getElem?_cons_succ]
      rw [ih (k + 1) n]
      have harith : k + 1 + n = k + (n + 1) := by omega
      rw [harith]

theorem filterMap_writeLoop_timed (fmt : String) (hfmt : fmt = "vtk" ∨ fmt = "vtu") :
    ∀ lst, (writeLoop fmt lst).filterMap Effect.timedWrite? =
      lst.map (fun tn => (tn.2, tn.1)) := by
  intro lst
  induction lst with
  | nil => simp [writeLoop]
  | cons tn rest ih =>
    obtain ⟨t, n⟩ := tn
    rcases hfmt with h | h <;> subst h <;>
      simp [writeLoop, Effect.timedWrite?, ih]

theorem filterMap_writeLoop_vtu :
    ∀ lst, (writeLoop "vtu" lst).filterMap Effect.vtuTimed? =
      lst.map (fun tn => (tn.2, tn.1)) := by
  intro lst
  induction lst with
  | nil => simp [writeLoop]
  | cons tn rest ih =>
    obtain ⟨t, n⟩ := tn
    simp [writeLoop, Effect.vtuTimed?, ih]

theorem filterMap_writeLoop_any (fmt : String) (hfmt : fmt = "vtk" ∨ fmt = "vtu") :
    ∀ lst, (writeLoop fmt lst).filterMap Effect.anyWrite? =
      lst.map (fun tn => (tn.2, some tn.1)) := by
  intro lst
  induction lst with
  | nil => simp [writeLoop]
  | cons tn rest ih =>
    obtain ⟨t, n⟩ := tn
    rcases hfmt with h | h <;> subst h <;>
      simp [writeLoop, Effect.anyWrite?, ih]

theorem filterMap_writeLoop_pvd (fmt : String) :
    ∀ lst, (writeLoop fmt lst).filterMap Effect.pvdWrite? = [] := by
  intro lst
  induction lst with
  | nil => simp [writeLoop]
  | cons tn rest ih =>
    obtain ⟨t, n⟩ := tn
    simp only [writeLoop, List.filterMap_cons, List.filterMap_append]
    split_ifs <;> simp [Effect.pvdWrite?, ih]

/-- Unfolding of the run in the mesh-with-time-increments case: sorting
the already-sorted TimeSeries is the identity and the dict fill reduces
to `namesFrom` since the distinct times are fresh keys. -/
theorem run_eq_mesh_times (c : Converter) (cwd : String) (p : ParseResult)
    (hn : p.node_block = true) (he : p.elem_block = true)
    (hts : runTimes p ≠ []) :
    c.run cwd p =
      Effect.makedirs (c.output_folder cwd) ::
      Effect.copy c.file_path (c.output_file cwd) ::
      Effect.logInfoPath "Parsing" (c.output_file cwd) ::
      Effect.parseFRD (c.output_file cwd) ::
      Effect.logInfo (toString (runTimes p).length ++ " time increment" ++
        (if 2 ≤ (runTimes p).length then "s" else "")) ::
      (writeLoop c.fmt
        (namesFrom (c.output_file cwd) c.fmt (runTimes p).length 1 (runTimes p)) ++
       (if 1 < (runTimes p).length ∧ c.fmt = "vtu" then
          [Effect.writePVD (pyReplace (c.output_file cwd) ".frd" ".pvd")
            (namesFrom (c.output_file cwd) c.fmt (runTimes p).length 1 (runTimes p))]
        else [])) := by
  have hlen : (pySortedSet (List.map ResultBlock.value p.result_blocks)).length ≠ 0 := by
    unfold runTimes at hts
    intro h0
    exact hts (List.length_eq_zero.mp h0)
  unfold Converter.run
  rw [hn, he]
  simp only [Bool.and_self, if_true]
  rw [if_pos hlen, pySorted_pySortedSet,
    mkTimesNames_eq (c.output_file cwd) c.fmt _ _ 1 [] (pySortedSet_nodup _)
      (by intro t _ kv hkv; simp at hkv)]
  simp [runTimes]

/-- Unfolding of the run in the mesh-but-no-result-blocks case. -/
theorem run_eq_mesh_notimes (c : Converter) (cwd : String) (p : ParseResult)
    (hn : p.node_block = true) (he : p.elem_block = true)
    (hts : runTimes p = []) :
    c.run cwd p =
      Effect.makedirs (c.output_folder cwd) ::
      Effect.copy c.file_path (c.output_file cwd) ::
      Effect.logInfoPath "Parsing" (c.output_file cwd) ::
      Effect.parseFRD (c.output_file cwd) ::
      Effect.logWarning "No time increments!" ::
      ((if c.fmt = "vtk" then
          [Effect.writeVTK (String.mk ((c.output_file cwd).data.take
            ((c.output_file cwd).data.length - 3)) ++ c.fmt) none]
        else []) ++
       (if c.fmt = "vtu" then
          [Effect.writeVTU (String.mk ((c.output_file cwd).data.take
            ((c.output_file cwd).data.length - 3)) ++ c.fmt) none]
        else [])) := by
  have hlen : ¬ (pySortedSet (List.map ResultBlock.value p.result_blocks)).length ≠ 0 := by
    unfold runTimes at hts
    simp [hts]
  unfold Converter.run
  rw [hn, he]
  simp only [Bool.and_self, if_true]
  rw [if_neg hlen]

/-- Unfolding of the run in the empty-mesh case: only the staging and the
warning happen, and the run terminates normally. -/
theorem run_eq_empty (c : Converter) (cwd : String) (p : ParseResult)
    (h : p.node_block = false ∨ p.elem_block = false) :
    c.run cwd p =
      [Effect.makedirs (c.output_folder cwd),
       Effect.copy c.file_path (c.output_file cwd),
       Effect.logInfoPath "Parsing" (c.output_file cwd),
       Effect.parseFRD (c.output_file cwd),
       Effect.logWarning "File is empty!"] := by
  unfold Converter.run
  rcases h with h | h <;> rw [h] <;> simp

theorem run_filterMap_timed (c : Converter) (cwd : String) (p : ParseResult)
    (hn : p.node_block = true) (he : p.elem_block = true)
    (hts : runTimes p ≠ []) (hfmt : c.fmt = "vtk" ∨ c.fmt = "vtu") :
    (c.run cwd p).filterMap Effect.timedWrite? =
      (namesFrom (c.output_file cwd) c.fmt (runTimes p).length 1 (runTimes p)).map
        (fun tn => (tn.2, tn.1)) := by
  rw [run_eq_mesh_times c cwd p hn he hts]
  simp only [List.filterMap_cons, Effect.timedWrite?, List.filterMap_append,
    filterMap_writeLoop_timed c.fmt hfmt]
  split_ifs <;> simp [Effect.timedWrite?]

theorem run_filterMap_vtu (c : Converter) (cwd : String) (p : ParseResult)
    (hn : p.node_block = true) (he : p.elem_block = true)
    (hts : runTimes p ≠ []) (hfmt : c.fmt = "vtu") :
    (c.run cwd p).filterMap Effect.vtuTimed? =
      (namesFrom (c.output_file cwd) "vtu" (runTimes p).length 1 (runTimes p)).map
        (fun tn => (tn.2, tn.1)) := by
  rw [run_eq_mesh_times c cwd p hn he hts, hfmt]
  simp only [List.filterMap_cons, Effect.vtuTimed?, List.filterMap_append,
    filterMap_writeLoop_vtu]
  split_ifs <;> simp [Effect.vtuTimed?]

theorem run_filterMap_any (c : Converter) (cwd : String) (p : ParseResult)
    (hn : p.node_block = true) (he : p.elem_block = true)
    (hts : runTimes p ≠ []) (hfmt : c.fmt = "vtk" ∨ c.fmt = "vtu") :
    (c.run cwd p).filterMap Effect.anyWrite? =
      (namesFrom (c.output_file cwd) c.fmt (runTimes p).length 1 (runTimes p)).map
        (fun tn => (tn.2, some tn.1)) := by
  rw [run_eq_mesh_times c cwd p hn he hts]
  simp only [List.filterMap_cons, Effect.anyWrite?, List.filterMap_append,
    filterMap_writeLoop_any c.fmt hfmt]
  split_ifs <;> simp [Effect.anyWrite?]

theorem run_filterMap_pvd (c : Converter) (cwd : String) (p : ParseResult)
    (hn : p.node_block = true) (he : p.elem_block = true)
    (hts : runTimes p ≠ []) :
    (c.run cwd p).filterMap Effect.pvdWrite? =
      if 1 < (runTimes p).length ∧ c.fmt = "vtu" then
        [(pyReplace (c.output_file cwd) ".frd" ".pvd",
          namesFrom (c.output_file cwd) c.fmt (runTimes p).length 1 (runTimes p))]
      else [] := by
  rw [run_eq_mesh_times c cwd p hn he hts]
  simp only [List.filterMap_cons, Effect.pvdWrite?, List.filterMap_append,
    filterMap_writeLoop_pvd]
  split_ifs <;> simp [Effect.pvdWrite?]

theorem run_timed_getElem (c : Converter) (cwd : String) (p : ParseResult)
    (hn : p.node_block = true) (he : p.elem_block = true)
    (hts : runTimes p ≠ []) (hfmt : c.fmt = "vtk" ∨ c.fmt = "vtu") (i : Nat) :
    ((c.run cwd p).filterMap Effect.timedWrite?)[i]? =
      ((runTimes p)[i]?).map (fun t =>
        (pyReplace (c.output_file cwd) ".frd"
          (extFor (runTimes p).length c.fmt (i + 1)), t)) := by
  rw [run_filterMap_timed c cwd p hn he hts hfmt, List.getElem?_map,
    namesFrom_getElem?]
  have harith : 1 + i = i + 1 := by omega
  rw [harith]
  cases (runTimes p)[i]? <;> simp

theorem run_filterMap_any_notimes (c : Converter) (cwd : String) (p : ParseResult)
    (hn : p.node_block = true) (he : p.elem_block = true)
    (hts : runTimes p = []) (hfmt : c.fmt = "vtk" ∨ c.fmt = "vtu") :
    (c.run cwd p).filterMap Effect.anyWrite? =
      [(String.mk ((c.output_file cwd).data.take
          ((c.output_file cwd).data.length - 3)) ++ c.fmt, none)] := by
  rw [run_eq_mesh_notimes c cwd p hn he hts]
  rcases hfmt with h | h <;> rw [h] <;>
    simp [List.filterMap_cons, Effect.anyWrite?]

theorem run_filterMap_pvd_notimes (c : Converter) (cwd : String) (p : ParseResult)
    (hn : p.node_block = true) (he : p.elem_block = true)
    (hts : runTimes p = []) :
    (c.run cwd p).filterMap Effect.pvdWrite? = [] := by
  rw [run_eq_mesh_notimes c cwd p hn he hts]
  simp only [List.filterMap_cons, Effect.pvdWrite?, List.filterMap_append]
  split_ifs <;> simp [Effect.pvdWrite?]

theorem run_filterMap_timed_notimes (c : Converter) (cwd : String) (p : ParseResult)
    (hn : p.node_block = true) (he : p.elem_block = true)
    (hts : runTimes p = []) :
    (c.run cwd p).filterMap Effect.timedWrite? = [] := by
  rw [run_eq_mesh_notimes c cwd p hn he hts]
  simp only [List.filterMap_cons, Effect.timedWrite?, List.filterMap_append]
  split_ifs <;> simp [Effect.timedWrite?]

theorem namesFrom_map_fst (ofile fmt : String) (l : Nat) :
    ∀ (ts : List Rat) (k : Nat), (namesFrom ofile fmt l k ts).map Prod.fst = ts := by
  intro ts
  induction ts with
  | nil => intro k; simp [namesFrom]
  | cons t ts ih => intro k; simp [namesFrom, ih]

theorem pySortedSet_length (xs : List Rat) :
    (pySortedSet xs).length = xs.dedup.length :=
  (List.perm_insertionSort _ _).length_eq

theorem init_fields (fp fmtv : String) (fo : Option String) (c : Converter)
    (hc : Converter.init fp fmtv fo = some c) :
    c.file_path = fp ∧ c.fmt = fmtv ∧ c.output_folder_opt = fo := by
  unfold Converter.init at hc
  dsimp only at hc
  split at hc
  · obtain rfl := Option.some.inj hc
    exact ⟨rfl, rfl, rfl⟩
  · exact absurd hc (by simp)

theorem init_name_ext (fp fmtv : String) (fo : Option String) (c : Converter)
    (hc : Converter.init fp fmtv fo = some c) :
    ((splitChar '.' (pyBasename fp).data).map String.mk)[0]? = some c.file_name ∧
    ((splitChar '.' (pyBasename fp).data).map String.mk)[1]? = some c.ext := by
  unfold Converter.init at hc
  dsimp only at hc
  split at hc
  · obtain rfl := Option.some.inj hc
    next heq =>
      rw [heq]
      refine ⟨?_, ?_⟩ <;> simp
  · exact absurd hc (by simp)

/- ===================  Claims  =================== -/

/-- Claim C2: for every input whose parse yields a non-empty mesh (node
block and element block present) but zero result blocks, the run logs
the "No time increments!" warning and produces exactly one untimed
output file (writer invoked with time None, no increment suffix in the
name), and no series index file. -/
theorem claim_C2 (fp fmtv : String) (fo : Option String) (cwd : String)
    (c : Converter) (p : ParseResult)
    (hc : Converter.init fp fmtv fo = some c)
    (hfmt : fmtv = "vtk" ∨ fmtv = "vtu")
    (hn : p.node_block = true) (he : p.elem_block = true)
    (hb : p.result_blocks = []) :
    Effect.logWarning "No time increments!" ∈ c.run cwd p ∧
    (c.run cwd p).filterMap Effect.anyWrite? =
      [(String.mk ((c.output_file cwd).data.take
          ((c.output_file cwd).data.length - 3)) ++ c.fmt, none)] ∧
    (c.run cwd p).filterMap Effect.pvdWrite? = [] := by
  obtain ⟨-, hcf, -⟩ := init_fields fp fmtv fo c hc
  have hts : runTimes p = [] := by
    simp [runTimes, hb, pySortedSet]
  have hcfmt : c.fmt = "vtk" ∨ c.fmt = "vtu" := by rw [hcf]; exact hfmt
  refine ⟨?_, ?_, ?_⟩
  · rw [run_eq_mesh_notimes c cwd p hn he hts]
    simp
  · exact run_filterMap_any_notimes c cwd p hn he hts hcfmt
  · exact run_filterMap_pvd_notimes c cwd p hn he hts

/-- Witness for claim C2 at a concrete input: one mesh, no result
blocks, legacy format; the single untimed output is `results/m.vtk`. -/
theorem claim_C2_witness :
    Effect.logWarning "No time increments!" ∈
      (Converter.mk "m.frd" "m" "frd" "vtk" none).run "" (ParseResult.mk true true []) ∧
    ((Converter.mk "m.frd" "m" "frd" "vtk" none).run ""
        (ParseResult.mk true true [])).filterMap Effect.anyWrite? =
      [("results/m.vtk", none)] ∧
    ((Converter.mk "m.frd" "m" "frd" "vtk" none).run ""
        (ParseResult.mk true true [])).filterMap Effect.pvdWrite? = [] := by
  have h := claim_C2 "m.frd" "vtk" none "" (Converter.mk "m.frd" "m" "frd" "vtk" none)
    (ParseResult.mk true true []) rfl (Or.inl rfl) rfl rfl rfl
  exact ⟨h.1, h.2.1.trans (by rfl), h.2.2⟩

/-- Claim C3: for every input whose parse yields no node block or no
element block, the run is exactly the staging effects followed by the
"File is empty!" warning: no writer is invoked, no output file is
produced, and the run terminates normally (it is a total function, not a
raised error). -/
theorem claim_C3 (fp fmtv : String) (fo : Option String) (cwd : String)
    (c : Converter) (p : ParseResult)
    (hc : Converter.init fp fmtv fo = some c)
    (hmesh : p.node_block = false ∨ p.elem_block = false) :
    c.run cwd p =
      [Effect.makedirs (c.output_folder cwd),
       Effect.copy c.file_path (c.output_file cwd),
       Effect.logInfoPath "Parsing" (c.output_file cwd),
       Effect.parseFRD (c.output_file cwd),
       Effect.logWarning "File is empty!"] :=
  run_eq_empty c cwd p hmesh

/-- Witness for claim C3 at a concrete input with a node block but no
element block. -/
theorem claim_C3_witness :
    (Converter.mk "e.frd" "e" "frd" "vtu" none).run ""
        (ParseResult.mk true false [ResultBlock.mk 1]) =
      [Effect.makedirs "results",
       Effect.copy "e.frd" "results/e.frd",
       Effect.logInfoPath "Parsing" "results/e.frd",
       Effect.parseFRD "results/e.frd",
       Effect.logWarning "File is empty!"] := by
  have h := claim_C3 "e.frd" "vtu" none "" (Converter.mk "e.frd" "e" "frd" "vtu" none)
    (ParseResult.mk true false [ResultBlock.mk 1]) rfl (Or.inr rfl)
  rw [h]
  rfl

/-- Claim C9: every run starts, before parsing, by creating the output
folder and copying the input file to the staged path, and then parses
the staged path (not the original); and in the empty-mesh case the copy
effect is still present while no writer output is produced, so the
staged copy persists. -/
theorem claim_C9 (fp fmtv : String) (fo : Option String) (cwd : String)
    (c : Converter) (p : ParseResult)
    (hc : Converter.init fp fmtv fo = some c) :
    (c.run cwd p).take 4 =
      [Effect.makedirs (c.output_folder cwd),
       Effect.copy fp (c.output_file cwd),
       Effect.logInfoPath "Parsing" (c.output_file cwd),
       Effect.parseFRD (c.output_file cwd)] ∧
    ((p.node_block = false ∨ p.elem_block = false) →
      Effect.copy fp (c.output_file cwd) ∈ c.run cwd p ∧
      (c.run cwd p).filterMap Effect.anyWrite? = [] ∧
      (c.run cwd p).filterMap Effect.pvdWrite? = []) := by
  obtain ⟨hcp, -, -⟩ := init_fields fp fmtv fo c hc
  subst hcp
  constructor
  · unfold Converter.run
    rfl
  · intro hmesh
    rw [run_eq_empty c cwd p hmesh]
    refine ⟨by simp, ?_, ?_⟩ <;>
      simp [List.filterMap_cons, Effect.anyWrite?, Effect.pvdWrite?]

/-- Witness for claim C9 at a concrete input with an empty mesh. -/
theorem claim_C9_witness :
    ((Converter.mk "s.frd" "s" "frd" "vtk" none).run ""
        (ParseResult.mk false true [])).take 4 =
      [Effect.makedirs "results",
       Effect.copy "s.frd" "results/s.frd",
       Effect.logInfoPath "Parsing" "results/s.frd",
       Effect.parseFRD "results/s.frd"] ∧
    Effect.copy "s.frd" "results/s.frd" ∈
      (Converter.mk "s.frd" "s" "frd" "vtk" none).run "" (ParseResult.mk false true []) ∧
    ((Converter.mk "s.frd" "s" "frd" "vtk" none).run ""
        (ParseResult.mk false true [])).filterMap Effect.anyWrite? = [] ∧
    ((Converter.mk "s.frd" "s" "frd" "vtk" none).run ""
        (ParseResult.mk false true [])).filterMap Effect.pvdWrite? = [] := by
  have h := claim_C9 "s.frd" "vtk" none "" (Converter.mk "s.frd" "s" "frd" "vtk" none)
    (ParseResult.mk false true []) rfl
  have h2 := h.2 (Or.inl rfl)
  refine ⟨?_, h2.1, h2.2.1, h2.2.2⟩
  have h1 := h.1
  rw [h1]
  rfl

/-- Claim C6: the number of per-timestep output files (timed writer
invocations) equals the number of distinct time values across all result
blocks; time values are deduplicated and sorted ascending when the
TimeSeries driving the naming is built, while the result blocks
themselves are not merged (the run reads them as given). -/
theorem claim_C6 (fp fmtv : String) (fo : Option String) (cwd : String)
    (c : Converter) (p : ParseResult)
    (hc : Converter.init fp fmtv fo = some c)
    (hfmt : fmtv = "vtk" ∨ fmtv = "vtu")
    (hn : p.node_block = true) (he : p.elem_block = true) :
    ((c.run cwd p).filterMap Effect.timedWrite?).map Prod.snd =
      pySortedSet (p.result_blocks.map ResultBlock.value) ∧
    ((c.run cwd p).filterMap Effect.timedWrite?).length =
      (p.result_blocks.map ResultBlock.value).dedup.length ∧
    List.Sorted (· < ·) (pySortedSet (p.result_blocks.map ResultBlock.value)) := by
  obtain ⟨-, hcf, -⟩ := init_fields fp fmtv fo c hc
  have hcfmt : c.fmt = "vtk" ∨ c.fmt = "vtu" := by rw [hcf]; exact hfmt
  by_cases hts : runTimes p = []
  · have h1 := run_filterMap_timed_notimes c cwd p hn he hts
    unfold runTimes at hts
    refine ⟨?_, ?_, pySortedSet_sorted_lt _⟩
    · rw [h1, hts]; rfl
    · rw [h1, ← pySortedSet_length, hts]
      rfl
  · have h1 := run_filterMap_timed c cwd p hn he hts hcfmt
    refine ⟨?_, ?_, pySortedSet_sorted_lt _⟩
    · rw [h1, List.map_map]
      have hcomp : (Prod.snd ∘ fun tn : Rat × String => (tn.2, tn.1)) =
          (Prod.fst : Rat × String → Rat) := rfl
      rw [hcomp, namesFrom_map_fst]
      rfl
    · rw [h1, List.length_map, namesFrom_length, ← pySortedSet_length]
      rfl

/-- Witness for claim C6 at a concrete input with two result blocks
sharing time 0 and a third at time 1: two timed writes, times [0, 1]. -/
theorem claim_C6_witness :
    (((Converter.mk "d.frd" "d" "frd" "vtu" none).run ""
        (ParseResult.mk true true [ResultBlock.mk 0, ResultBlock.mk 0,
          ResultBlock.mk 1])).filterMap Effect.timedWrite?).map Prod.snd =
      [0, 1] ∧
    (((Converter.mk "d.frd" "d" "frd" "vtu" none).run ""
        (ParseResult.mk true true [ResultBlock.mk 0, ResultBlock.mk 0,
          ResultBlock.mk 1])).filterMap Effect.timedWrite?).length = 2 ∧
    List.Sorted (· < ·) (pySortedSet ((ParseResult.mk true true [ResultBlock.mk 0,
      ResultBlock.mk 0, ResultBlock.mk 1]).result_blocks.map ResultBlock.value)) := by
  have h := claim_C6 "d.frd" "vtu" none "" (Converter.mk "d.frd" "d" "frd" "vtu" none)
    (ParseResult.mk true true [ResultBlock.mk 0, ResultBlock.mk 0, ResultBlock.mk 1])
    rfl (Or.inr rfl) rfl rfl
  exact ⟨h.1.trans (by decide), h.2.1.trans (by decide), h.2.2⟩

/-- Claim C5 (amended with the mesh-present hypothesis): for every input
whose parse yields a mesh and exactly one distinct time increment, an
XML (vtu) run produces exactly one writer output and no PVD series
index; and a legacy (vtk) run never produces a PVD series index. -/
theorem claim_C5 (fp fmtv : String) (fo : Option String) (cwd : String)
    (c : Converter) (p : ParseResult)
    (hc : Converter.init fp fmtv fo = some c)
    (hn : p.node_block = true) (he : p.elem_block = true) :
    (fmtv = "vtu" → (runTimes p).length = 1 →
      ((c.run cwd p).filterMap Effect.anyWrite?).length = 1 ∧
      (c.run cwd p).filterMap Effect.pvdWrite? = []) ∧
    (fmtv = "vtk" → (c.run cwd p).filterMap Effect.pvdWrite? = []) := by
  obtain ⟨-, hcf, -⟩ := init_fields fp fmtv fo c hc
  constructor
  · intro hv hl
    have hts : runTimes p ≠ [] := by
      intro h0
      rw [h0] at hl
      simp at hl
    have hcfmt : c.fmt = "vtu" := by rw [hcf, hv]
    refine ⟨?_, ?_⟩
    · rw [run_filterMap_any c cwd p hn he hts (Or.inr hcfmt), List.length_map,
        namesFrom_length, hl]
    · rw [run_filterMap_pvd c cwd p hn he hts, if_neg]
      intro hcond
      rw [hl] at hcond
      exact absurd hcond.1 (by omega)
  · intro hv
    have hcfmt : c.fmt = "vtk" := by rw [hcf, hv]
    by_cases hts : runTimes p = []
    · exact run_filterMap_pvd_notimes c cwd p hn he hts
    · rw [run_filterMap_pvd c cwd p hn he hts, if_neg]
      intro hcond
      rw [hcfmt] at hcond
      exact absurd hcond.2 (by decide)

/-- Counterexample to claim C5 as stated: an input whose parse has
exactly one distinct time increment but no node block produces zero
output files in vtu mode (the claim asserts exactly one). -/
theorem claim_C5_counterexample :
    (runTimes (ParseResult.mk false true [ResultBlock.mk 0])).length = 1 ∧
    Converter.init "b.frd" "vtu" none =
      some (Converter.mk "b.frd" "b" "frd" "vtu" none) ∧
    ((Converter.mk "b.frd" "b" "frd" "vtu" none).run ""
        (ParseResult.mk false true [ResultBlock.mk 0])).filterMap
      Effect.anyWrite? = [] := by
  refine ⟨by decide, rfl, ?_⟩
  have h := run_eq_empty (Converter.mk "b.frd" "b" "frd" "vtu" none) ""
    (ParseResult.mk false true [ResultBlock.mk 0]) (Or.inl rfl)
  rw [h]
  rfl

/-- Witness for claim C5 (amended) at concrete inputs: a one-increment
vtu run and a two-increment vtk run. -/
theorem claim_C5_witness :
    (((Converter.mk "w.frd" "w" "frd" "vtu" none).run ""
        (ParseResult.mk true true [ResultBlock.mk 5])).filterMap
      Effect.anyWrite?).length = 1 ∧
    ((Converter.mk "w.frd" "w" "frd" "vtu" none).run ""
        (ParseResult.mk true true [ResultBlock.mk 5])).filterMap
      Effect.pvdWrite? = [] ∧
    ((Converter.mk "w.frd" "w" "frd" "vtk" none).run ""
        (ParseResult.mk true true [ResultBlock.mk 1, ResultBlock.mk 2])).filterMap
      Effect.pvdWrite? = [] := by
  have h1 := (claim_C5 "w.frd" "vtu" none "" (Converter.mk "w.frd" "w" "frd" "vtu" none)
    (ParseResult.mk true true [ResultBlock.mk 5]) rfl rfl rfl).1 rfl (by decide)
  have h2 := (claim_C5 "w.frd" "vtk" none "" (Converter.mk "w.frd" "w" "frd" "vtk" none)
    (ParseResult.mk true true [ResultBlock.mk 1, ResultBlock.mk 2]) rfl rfl rfl).2 rfl
  exact ⟨h1.1, h1.2, h2⟩

/-- When the staged path holds ".frd" exactly once, as its final four
characters, Python replace substitutes the extension for exactly that
occurrence. -/
theorem pyReplace_onlyFinalFrd (s : String) (h : onlyFinalFrd s) (e : String) :
    pyReplace s ".frd" e =
      String.mk (s.data.take (s.data.length - 4)) ++ e := by
  obtain ⟨⟨t, ht⟩, hno⟩ := h
  have htake : s.data.take (s.data.length - 4) = t := by
    rw [← ht]
    have hl : (t ++ frdPat).length - 4 = t.length := by simp [frdPat]
    rw [hl]
    exact List.take_left t frdPat
  have hdrop : s.data.dropLast = t ++ frdPat.dropLast := by
    rw [← ht, show t ++ frdPat = (t ++ ['.', 'f', 'r']) ++ ['d'] by simp [frdPat],
      List.dropLast_concat]
    rfl
  rw [hdrop] at hno
  have hrl : replaceList frdPat e.data s.data = t ++ e.data := by
    rw [← ht]
    exact replaceList_final frdPat e.data (by simp [frdPat]) t hno
  unfold pyReplace
  rw [show (".frd" : String).data = frdPat from rfl, hrl, htake]
  apply string_data_inj
  rw [string_mk_data, string_append_data, string_mk_data]

/-- Claim C8 (amended): a CLI invocation with a format other than vtk or
vtu prints the wrong-format error and creates no Converter; with a
recognized format a Converter is created and the conversion run,
provided the basename of the filename splits into at least two
dot-separated segments (otherwise Converter construction itself fails
with an IndexError before any conversion). -/
theorem claim_C8 (filename fmtv : String) :
    ((fmtv ≠ "vtk" ∧ fmtv ≠ "vtu") →
      cliMain filename fmtv =
        CLIOutcome.printedError
          ("ERROR! Wrong format \"" ++ fmtv ++ "\". Choose one of: vtk, vtu.")) ∧
    ((fmtv = "vtk" ∨ fmtv = "vtu") →
      2 ≤ ((splitChar '.' (pyBasename filename).data).map String.mk).length →
      (cliMain filename fmtv).isConversionRun = true) := by
  constructor
  · intro hne
    unfold cliMain
    rw [if_neg]
    intro hor
    rcases hor with h | h
    · exact hne.1 h
    · exact hne.2 h
  · intro hor hlen
    obtain ⟨c, hcinit⟩ : ∃ c, Converter.init filename fmtv none = some c := by
      unfold Converter.init
      dsimp only
      cases hsp : (splitChar '.' (pyBasename filename).data).map String.mk with
      | nil =>
        rw [hsp] at hlen
        simp at hlen
      | cons a rest =>
        cases rest with
        | nil =>
          rw [hsp] at hlen
          simp at hlen
        | cons b tail => exact ⟨_, rfl⟩
    unfold cliMain
    rw [if_pos hor, hcinit]
    rfl

/-- Counterexample to claim C8 as stated: with the recognized format vtk
but a dotless filename, Converter construction fails (IndexError on the
second basename segment) and no conversion is run. -/
theorem claim_C8_counterexample :
    cliMain "x" "vtk" = CLIOutcome.initError ∧
    (cliMain "x" "vtk").isConversionRun = false :=
  ⟨rfl, rfl⟩

/-- Witness for claim C8 (amended): a recognized format runs the
conversion, an unrecognized one prints the error message. -/
theorem claim_C8_witness :
    (cliMain "model.frd" "vtu").isConversionRun = true ∧
    cliMain "model.frd" "xml" =
      CLIOutcome.printedError
        "ERROR! Wrong format \"xml\". Choose one of: vtk, vtu." := by
  have h1 := (claim_C8 "model.frd" "vtu").2 (Or.inr rfl) (by decide)
  have h2 := (claim_C8 "model.frd" "xml").1 (by decide)
  exact ⟨h1, h2⟩

theorem namesFrom_snd_mem (ofile fmt : String) (l : Nat) :
    ∀ (ts : List Rat) (k : Nat) (x : Rat × String), x ∈ namesFrom ofile fmt l k ts →
      ∃ j, x.2 = pyReplace ofile ".frd" (extFor l fmt j) := by
  intro ts
  induction ts with
  | nil =>
    intro k x hx
    simp [namesFrom] at hx
  | cons t ts ih =>
    intro k x hx
    rcases List.mem_cons.mp hx with h1 | h1
    · exact ⟨k, by rw [h1]⟩
    · exact ih (k + 1) x h1

/-- Claim C10 (amended): the Converter derives the output base name from
the first two dot-separated segments of the input basename (later
segments are dropped), per-time output names are built by replacing the
substring ".frd" in the staged path, and consequently every timed output
path equals the staged path itself for any input whose staged path
contains no occurrence of ".frd". -/
theorem claim_C10 (fp fmtv : String) (fo : Option String) (cwd : String)
    (c : Converter) (p : ParseResult)
    (hc : Converter.init fp fmtv fo = some c)
    (hn : p.node_block = true) (he : p.elem_block = true)
    (hfmt : fmtv = "vtk" ∨ fmtv = "vtu")
    (hnofrd : ¬ frdPat <:+: (c.output_file cwd).data) :
    ((splitChar '.' (pyBasename fp).data).map String.mk)[0]? = some c.file_name ∧
    ((splitChar '.' (pyBasename fp).data).map String.mk)[1]? = some c.ext ∧
    ∀ nt ∈ (c.run cwd p).filterMap Effect.timedWrite?, nt.1 = c.output_file cwd := by
  obtain ⟨hseg0, hseg1⟩ := init_name_ext fp fmtv fo c hc
  obtain ⟨-, hcf, -⟩ := init_fields fp fmtv fo c hc
  have hcfmt : c.fmt = "vtk" ∨ c.fmt = "vtu" := by rw [hcf]; exact hfmt
  have hrep : ∀ e : String, pyReplace (c.output_file cwd) ".frd" e = c.output_file cwd := by
    intro e
    unfold pyReplace
    rw [show (".frd" : String).data = frdPat from rfl,
      replaceList_of_not_infix frdPat e.data (c.output_file cwd).data hnofrd]
  refine ⟨hseg0, hseg1, ?_⟩
  intro nt hnt
  by_cases hts : runTimes p = []
  · rw [run_filterMap_timed_notimes c cwd p hn he hts] at hnt
    simp at hnt
  · rw [run_filterMap_timed c cwd p hn he hts hcfmt] at hnt
    obtain ⟨tn, htn, rfl⟩ := List.mem_map.mp hnt
    obtain ⟨j, hj⟩ := namesFrom_snd_mem _ _ _ _ _ tn htn
    show tn.2 = c.output_file cwd
    rw [hj, hrep]

/-- Counterexample to claim C10 as stated: for the input `a.frdx` the
extension is `frdx`, not `frd`, yet the timed output path differs from
the staged path, because the staged path still contains the substring
".frd" and the replacement fires. -/
theorem claim_C10_counterexample :
    Converter.init "a.frdx" "vtu" none =
      some (Converter.mk "a.frdx" "a" "frdx" "vtu" none) ∧
    (Converter.mk "a.frdx" "a" "frdx" "vtu" none).ext ≠ "frd" ∧
    (Converter.mk "a.frdx" "a" "frdx" "vtu" none).output_file "" = "results/a.frdx" ∧
    ((Converter.mk "a.frdx" "a" "frdx" "vtu" none).run ""
        (ParseResult.mk true true [ResultBlock.mk 0])).filterMap Effect.timedWrite? =
      [("results/a.vtux", (0 : Rat))] := by
  refine ⟨rfl, by decide, rfl, by decide⟩

/-- Witness for claim C10 (amended) at the input `inp.med`, whose staged
path `results/inp.med` holds no ".frd": the single timed output goes to
the staged path itself. -/
theorem claim_C10_witness :
    ((splitChar '.' (pyBasename "inp.med").data).map String.mk)[0]? = some "inp" ∧
    ((splitChar '.' (pyBasename "inp.med").data).map String.mk)[1]? = some "med" ∧
    (("results/inp.med", (0 : Rat)) ∈
      ((Converter.mk "inp.med" "inp" "med" "vtu" none).run ""
        (ParseResult.mk true true [ResultBlock.mk 0])).filterMap Effect.timedWrite?) ∧
    ("results/inp.med" : String) =
      (Converter.mk "inp.med" "inp" "med" "vtu" none).output_file "" := by
  have h := claim_C10 "inp.med" "vtu" none "" (Converter.mk "inp.med" "inp" "med" "vtu" none)
    (ParseResult.mk true true [ResultBlock.mk 0]) rfl rfl rfl (Or.inr rfl) (by decide)
  have hmem : (("results/inp.med", (0 : Rat)) ∈
      ((Converter.mk "inp.med" "inp" "med" "vtu" none).run ""
        (ParseResult.mk true true [ResultBlock.mk 0])).filterMap Effect.timedWrite?) := by
    decide
  exact ⟨h.1, h.2.1, hmem, h.2.2 _ hmem⟩

/-- Claim C1 (amended with the condition that the staged path contains
".frd" exactly once, as its extension — e.g. any .frd input whose output
folder path is free of ".frd"): an XML (vtu) run over N>1 distinct time
values emits exactly N per-timestep vtu outputs, the i-th of which (from
0) carries the zero-padded increment suffix i+1 (width = digit count of
N) and the i-th smallest time value; and exactly one PVD series index is
written, listing all N file names paired with their time values in
ascending time order. -/
theorem claim_C1 (fp : String) (fo : Option String) (cwd : String)
    (c : Converter) (p : ParseResult)
    (hc : Converter.init fp "vtu" fo = some c)
    (hn : p.node_block = true) (he : p.elem_block = true)
    (hN : 1 < (runTimes p).length)
    (hfrd : onlyFinalFrd (c.output_file cwd)) :
    ((c.run cwd p).filterMap Effect.vtuTimed?).length = (runTimes p).length ∧
    (∀ i : Nat, ((c.run cwd p).filterMap Effect.vtuTimed?)[i]? =
      ((runTimes p)[i]?).map (fun t =>
        (String.mk ((c.output_file cwd).data.take ((c.output_file cwd).data.length - 4)) ++
          "." ++ zfill (toString (runTimes p).length).length (i + 1) ++ ".vtu", t))) ∧
    List.Sorted (· < ·) (runTimes p) ∧
    ((c.run cwd p).filterMap Effect.pvdWrite?).map Prod.fst =
      [String.mk ((c.output_file cwd).data.take
        ((c.output_file cwd).data.length - 4)) ++ ".pvd"] ∧
    (∀ i : Nat, (pvdPairs (c.run cwd p))[i]? =
      ((runTimes p)[i]?).map (fun t =>
        (t, String.mk ((c.output_file cwd).data.take
          ((c.output_file cwd).data.length - 4)) ++
          "." ++ zfill (toString (runTimes p).length).length (i + 1) ++ ".vtu"))) := by
  obtain ⟨-, hcf, -⟩ := init_fields fp "vtu" fo c hc
  have hts : runTimes p ≠ [] := by
    intro h0
    rw [h0] at hN
    simp at hN
  have hname : ∀ j, pyReplace (c.output_file cwd) ".frd"
      (extFor (runTimes p).length "vtu" j) =
      String.mk ((c.output_file cwd).data.take ((c.output_file cwd).data.length - 4)) ++
        "." ++ zfill (toString (runTimes p).length).length j ++ ".vtu" := by
    intro j
    rw [extFor, if_pos hN, pyReplace_onlyFinalFrd _ hfrd]
    apply string_data_inj
    have hvtu : (".vtu" : String).data = ("." : String).data ++ ("vtu" : String).data := rfl
    simp only [string_append_data, string_mk_data, hvtu, List.append_assoc,
      List.singleton_append]
  refine ⟨?_, ?_, ?_, ?_, ?_⟩
  · rw [run_filterMap_vtu c cwd p hn he hts hcf, List.length_map, namesFrom_length]
  · intro i
    rw [run_filterMap_vtu c cwd p hn he hts hcf, List.getElem?_map, namesFrom_getElem?]
    have harith : 1 + i = i + 1 := Nat.add_comm 1 i
    rw [harith]
    cases hx : (runTimes p)[i]? with
    | none => rfl
    | some t =>
      show some (pyReplace (c.output_file cwd) ".frd"
        (extFor (runTimes p).length "vtu" (i + 1)), t) = _
      rw [hname (i + 1)]
      rfl
  · exact pySortedSet_sorted_lt _
  · rw [run_filterMap_pvd c cwd p hn he hts, if_pos ⟨hN, hcf⟩, List.map_cons,
      List.map_nil, pyReplace_onlyFinalFrd _ hfrd]
  · intro i
    unfold pvdPairs
    rw [run_filterMap_pvd c cwd p hn he hts, if_pos ⟨hN, hcf⟩]
    show (namesFrom (c.output_file cwd) c.fmt (runTimes p).length 1 (runTimes p) ++ [])[i]? = _
    rw [List.append_nil, namesFrom_getElem?]
    have harith : 1 + i = i + 1 := Nat.add_comm 1 i
    rw [harith, hcf]
    cases hx : (runTimes p)[i]? with
    | none => rfl
    | some t =>
      show some (t, pyReplace (c.output_file cwd) ".frd"
        (extFor (runTimes p).length "vtu" (i + 1))) = _
      rw [hname (i + 1)]
      rfl

/-- Counterexample to claim C1 as stated: for the input `x.med` (a file
whose parse yields a mesh and 2 distinct time values but whose staged
path holds no ".frd"), the 2 vtu writer calls both target the same
single file name with no increment suffix, and the PVD index is written
to that very same name — not 2 per-timestep files plus an index file. -/
theorem claim_C1_counterexample :
    Converter.init "x.med" "vtu" none =
      some (Converter.mk "x.med" "x" "med" "vtu" none) ∧
    (runTimes (ParseResult.mk true true [ResultBlock.mk 0, ResultBlock.mk 1])).length = 2 ∧
    ((((Converter.mk "x.med" "x" "med" "vtu" none).run ""
        (ParseResult.mk true true [ResultBlock.mk 0, ResultBlock.mk 1])).filterMap
      Effect.vtuTimed?).map Prod.fst).dedup = ["results/x.med"] ∧
    ((Converter.mk "x.med" "x" "med" "vtu" none).run ""
        (ParseResult.mk true true [ResultBlock.mk 0, ResultBlock.mk 1])).filterMap
      Effect.pvdWrite? =
      [("results/x.med", [((0 : Rat), "results/x.med"), ((1 : Rat), "results/x.med")])] := by
  refine ⟨rfl, by decide, by decide, by decide⟩

/-- Witness for claim C1 (amended) at the input `t.frd` with result
blocks at times 1 and 0 (unsorted in the input): two vtu outputs
`results/t.1.vtu` (time 0) and `results/t.2.vtu` (time 1), plus the
index `results/t.pvd` listing both in ascending time order. -/
theorem claim_C1_witness :
    (((Converter.mk "t.frd" "t" "frd" "vtu" none).run ""
        (ParseResult.mk true true [ResultBlock.mk 1, ResultBlock.mk 0])).filterMap
      Effect.vtuTimed?).length = 2 ∧
    (((Converter.mk "t.frd" "t" "frd" "vtu" none).run ""
        (ParseResult.mk true true [ResultBlock.mk 1, ResultBlock.mk 0])).filterMap
      Effect.vtuTimed?)[0]? = some ("results/t.1.vtu", (0 : Rat)) ∧
    (((Converter.mk "t.frd" "t" "frd" "vtu" none).run ""
        (ParseResult.mk true true [ResultBlock.mk 1, ResultBlock.mk 0])).filterMap
      Effect.vtuTimed?)[1]? = some ("results/t.2.vtu", (1 : Rat)) ∧
    (((Converter.mk "t.frd" "t" "frd" "vtu" none).run ""
        (ParseResult.mk true true [ResultBlock.mk 1, ResultBlock.mk 0])).filterMap
      Effect.pvdWrite?).map Prod.fst = ["results/t.pvd"] ∧
    (pvdPairs ((Converter.mk "t.frd" "t" "frd" "vtu" none).run ""
        (ParseResult.mk true true [ResultBlock.mk 1, ResultBlock.mk 0])))[0]? =
      some ((0 : Rat), "results/t.1.vtu") ∧
    (pvdPairs ((Converter.mk "t.frd" "t" "frd" "vtu" none).run ""
        (ParseResult.mk true true [ResultBlock.mk 1, ResultBlock.mk 0])))[1]? =
      some ((1 : Rat), "results/t.2.vtu") := by
  have h := claim_C1 "t.frd" none "" (Converter.mk "t.frd" "t" "frd" "vtu" none)
    (ParseResult.mk true true [ResultBlock.mk 1, ResultBlock.mk 0]) rfl rfl rfl
    (by decide) (by decide)
  exact ⟨h.1.trans (by decide), (h.2.1 0).trans (by decide), (h.2.1 1).trans (by decide),
    h.2.2.2.1.trans (by decide), (h.2.2.2.2 0).trans (by decide),
    (h.2.2.2.2 1).trans (by decide)⟩

/-- Claim C4 (amended with the condition that the staged path contains
".frd" exactly once, as its extension): for every run with a non-empty
TimeSeries of L distinct time values, the selected writer is invoked
exactly once per time value; when L>1 the i-th output name (from 0)
carries the increment suffix i+1 zero-padded to width = digit count of
L, and when L=1 the single output name carries no increment suffix, just
the format extension. -/
theorem claim_C4 (fp fmtv : String) (fo : Option String) (cwd : String)
    (c : Converter) (p : ParseResult)
    (hc : Converter.init fp fmtv fo = some c)
    (hfmt : fmtv = "vtk" ∨ fmtv = "vtu")
    (hn : p.node_block = true) (he : p.elem_block = true)
    (hts : runTimes p ≠ [])
    (hfrd : onlyFinalFrd (c.output_file cwd)) :
    ((c.run cwd p).filterMap Effect.timedWrite?).length = (runTimes p).length ∧
    (1 < (runTimes p).length →
      ∀ i : Nat, ((c.run cwd p).filterMap Effect.timedWrite?)[i]? =
        ((runTimes p)[i]?).map (fun t =>
          (String.mk ((c.output_file cwd).data.take
            ((c.output_file cwd).data.length - 4)) ++
            "." ++ zfill (toString (runTimes p).length).length (i + 1) ++ "." ++ fmtv,
           t))) ∧
    ((runTimes p).length = 1 →
      (c.run cwd p).filterMap Effect.timedWrite? =
        (runTimes p).map (fun t =>
          (String.mk ((c.output_file cwd).data.take
            ((c.output_file cwd).data.length - 4)) ++ "." ++ fmtv, t))) := by
  obtain ⟨-, hcf, -⟩ := init_fields fp fmtv fo c hc
  have hcfmt : c.fmt = "vtk" ∨ c.fmt = "vtu" := by rw [hcf]; exact hfmt
  refine ⟨?_, ?_, ?_⟩
  · rw [run_filterMap_timed c cwd p hn he hts hcfmt, List.length_map, namesFrom_length]
  · intro hN i
    have hname : pyReplace (c.output_file cwd) ".frd"
        (extFor (runTimes p).length c.fmt (i + 1)) =
        String.mk ((c.output_file cwd).data.take ((c.output_file cwd).data.length - 4)) ++
          "." ++ zfill (toString (runTimes p).length).length (i + 1) ++ "." ++ fmtv := by
      rw [extFor, if_pos hN, pyReplace_onlyFinalFrd _ hfrd, hcf]
      apply string_data_inj
      simp only [string_append_data, string_mk_data, List.append_assoc]
    rw [run_filterMap_timed c cwd p hn he hts hcfmt, List.getElem?_map,
      namesFrom_getElem?]
    have harith : 1 + i = i + 1 := Nat.add_comm 1 i
    rw [harith]
    cases hx : (runTimes p)[i]? with
    | none => rfl
    | some t =>
      show some (pyReplace (c.output_file cwd) ".frd"
        (extFor (runTimes p).length c.fmt (i + 1)), t) = _
      rw [hname]
      rfl
  · intro hone
    obtain ⟨t, ht⟩ := List.length_eq_one.mp hone
    have hname : pyReplace (c.output_file cwd) ".frd" (extFor 1 c.fmt 1) =
        String.mk ((c.output_file cwd).data.take ((c.output_file cwd).data.length - 4)) ++
          "." ++ fmtv := by
      rw [extFor, if_neg (by omega), pyReplace_onlyFinalFrd _ hfrd, hcf]
      apply string_data_inj
      simp only [string_append_data, string_mk_data, List.append_assoc]
    rw [run_filterMap_timed c cwd p hn he hts hcfmt, ht]
    show [(pyReplace (c.output_file cwd) ".frd" (extFor 1 c.fmt 1), t)] = _
    rw [hname]
    rfl

/-- Counterexample to claim C4 as stated: for the input `y.med` (parse
yields a mesh and L = 2 distinct time values, staged path holds no
".frd") both timed writer calls target the bare staged path with no
zero-padded increment suffix at all. -/
theorem claim_C4_counterexample :
    Converter.init "y.med" "vtk" none =
      some (Converter.mk "y.med" "y" "med" "vtk" none) ∧
    (runTimes (ParseResult.mk true true [ResultBlock.mk 0, ResultBlock.mk 1])).length = 2 ∧
    ((Converter.mk "y.med" "y" "med" "vtk" none).run ""
        (ParseResult.mk true true [ResultBlock.mk 0, ResultBlock.mk 1])).filterMap
      Effect.timedWrite? =
      [("results/y.med", (0 : Rat)), ("results/y.med", (1 : Rat))] ∧
    ¬ ((".1." : String).data <:+: ("results/y.med" : String).data) := by
  refine ⟨rfl, by decide, by decide, by decide⟩

/-- Witness for claim C4 (amended) at the input `q.frd` with result
blocks at times 3 and 2: legacy outputs `results/q.1.vtk` (time 2) and
`results/q.2.vtk` (time 3). -/
theorem claim_C4_witness :
    (((Converter.mk "q.frd" "q" "frd" "vtk" none).run ""
        (ParseResult.mk true true [ResultBlock.mk 3, ResultBlock.mk 2])).filterMap
      Effect.timedWrite?).length = 2 ∧
    (((Converter.mk "q.frd" "q" "frd" "vtk" none).run ""
        (ParseResult.mk true true [ResultBlock.mk 3, ResultBlock.mk 2])).filterMap
      Effect.timedWrite?)[0]? = some ("results/q.1.vtk", (2 : Rat)) ∧
    (((Converter.mk "q.frd" "q" "frd" "vtk" none).run ""
        (ParseResult.mk true true [ResultBlock.mk 3, ResultBlock.mk 2])).filterMap
      Effect.timedWrite?)[1]? = some ("results/q.2.vtk", (3 : Rat)) := by
  have h := claim_C4 "q.frd" "vtk" none "" (Converter.mk "q.frd" "q" "frd" "vtk" none)
    (ParseResult.mk true true [ResultBlock.mk 3, ResultBlock.mk 2]) rfl (Or.inl rfl)
    rfl rfl (by decide) (by decide)
  exact ⟨h.1.trans (by decide), (h.2.1 (by decide) 0).trans (by decide),
    (h.2.1 (by decide) 1).trans (by decide)⟩

/- ===================  Idempotence of the run (claim C7)  =================== -/

/-- The content of the last write to `q` in a write list, if any. -/
def lastVal : List (String × String) → String → Option String
  | [], _ => none
  | kv :: rest, q =>
    match lastVal rest q with
    | some v => some v
    | none => if q = kv.1 then some kv.2 else none

theorem lastVal_none_of_not_mem (q : String) :
    ∀ ws : List (String × String), q ∉ ws.map Prod.fst → lastVal ws q = none := by
  intro ws
  induction ws with
  | nil => intro _; rfl
  | cons kv rest ih =>
    intro hq
    have hq1 : q ≠ kv.1 := by
      intro he
      exact hq (by simp [he])
    have hq2 : q ∉ rest.map Prod.fst := by
      intro he
      exact hq (by simp [he])
    show (match lastVal rest q with
      | some v => some v
      | none => if q = kv.1 then some kv.2 else none) = none
    rw [ih hq2, if_neg hq1]

theorem lastVal_cons (kv : String × String) (rest : List (String × String)) (q : String) :
    lastVal (kv :: rest) q =
      match lastVal rest q with
      | some v => some v
      | none => if q = kv.1 then some kv.2 else none := rfl

/-- Reading a location after a batch of writes: the last write to that
location wins, else the original filesystem value. -/
theorem execWrites_apply (q : String) :
    ∀ (ws : List (String × String)) (fs : FS),
      execWrites ws fs q =
        match lastVal ws q with
        | some v => some v
        | none => fs q := by
  intro ws
  induction ws with
  | nil => intro fs; rfl
  | cons kv rest ih =>
    intro fs
    show execWrites rest (fsWrite fs kv.1 kv.2) q = _
    rw [ih]
    cases hl : lastVal rest q with
    | some v =>
      show some v = _
      rw [lastVal_cons, hl]
    | none =>
      show fsWrite fs kv.1 kv.2 q = _
      rw [lastVal_cons, hl]
      unfold fsWrite
      by_cases hq : q = kv.1
      · rw [if_pos hq, if_pos hq]
      · rw [if_neg hq, if_neg hq]

/-- Claim C7: running the conversion twice with the same input path,
format and output folder is idempotent.  The first run stages the input
and applies the writer outputs; the second run re-stages the same
content (the original was not overwritten), parses the same result,
issues the identical writes, and leaves the filesystem pointwise equal
to the state after the first run — the same output names with identical
contents.  Quantified over arbitrary deterministic writer functions and
an arbitrary parse function of the staged content. -/
theorem claim_C7 (w : Writers) (parseF : String → ParseResult)
    (fp fmtv : String) (fo : Option String) (cwd : String) (c : Converter)
    (fs : FS) (content : String)
    (hc : Converter.init fp fmtv fo = some c)
    (h0 : c.file_path ≠ c.output_file cwd)
    (h1 : fs c.file_path = some content)
    (h3 : c.file_path ∉ (runWrites w c cwd (parseF content)).map Prod.fst)
    (q : String) :
    runFS w parseF c cwd fs = some (runCore w parseF c cwd fs content) ∧
    runFS w parseF c cwd (runCore w parseF c cwd fs content) =
      some (runCore w parseF c cwd (runCore w parseF c cwd fs content) content) ∧
    runCore w parseF c cwd (runCore w parseF c cwd fs content) content q =
      runCore w parseF c cwd fs content q := by
  have hfs1_fp : runCore w parseF c cwd fs content c.file_path = some content := by
    unfold runCore
    rw [execWrites_apply, lastVal_none_of_not_mem _ _ h3]
    unfold fsWrite
    rw [if_neg h0, h1]
  refine ⟨?_, ?_, ?_⟩
  · show (if c.file_path = c.output_file cwd then none
      else match fs c.file_path with
        | none => none
        | some content =>
          some (execWrites (runWrites w c cwd (parseF content))
            (fsWrite fs (c.output_file cwd) content))) = _
    rw [if_neg h0, h1]
    rfl
  · show (if c.file_path = c.output_file cwd then none
      else match runCore w parseF c cwd fs content c.file_path with
        | none => none
        | some content2 =>
          some (execWrites (runWrites w c cwd (parseF content2))
            (fsWrite (runCore w parseF c cwd fs content) (c.output_file cwd) content2))) = _
    rw [if_neg h0, hfs1_fp]
    rfl
  · show execWrites (runWrites w c cwd (parseF content))
      (fsWrite (runCore w parseF c cwd fs content) (c.output_file cwd) content) q = _
    rw [execWrites_apply]
    cases hl : lastVal (runWrites w c cwd (parseF content)) q with
    | some v =>
      show some v = _
      conv_rhs => unfold runCore
      rw [execWrites_apply, hl]
    | none =>
      show fsWrite (runCore w parseF c cwd fs content) (c.output_file cwd) content q = _
      unfold fsWrite
      by_cases hq : q = c.output_file cwd
      · rw [if_pos hq]
        conv_rhs => unfold runCore
        rw [execWrites_apply, hl]
        show some content = if q = c.output_file cwd then some content else fs q
        rw [if_pos hq]
      · rw [if_neg hq]

/-- Witness for claim C7 at a concrete two-increment vtu conversion with
constant writer functions and a constant parse function. -/
theorem claim_C7_witness :
    runFS (Writers.mk (fun _ _ => "VTKDATA") (fun _ _ => "VTUDATA") (fun _ => "PVDDATA"))
        (fun _ => ParseResult.mk true true [ResultBlock.mk 0, ResultBlock.mk 1])
        (Converter.mk "a.frd" "a" "frd" "vtu" none) ""
        (fun s => if s = "a.frd" then some "FRDCONTENT" else none) =
      some (runCore (Writers.mk (fun _ _ => "VTKDATA") (fun _ _ => "VTUDATA")
          (fun _ => "PVDDATA"))
        (fun _ => ParseResult.mk true true [ResultBlock.mk 0, ResultBlock.mk 1])
        (Converter.mk "a.frd" "a" "frd" "vtu" none) ""
        (fun s => if s = "a.frd" then some "FRDCONTENT" else none) "FRDCONTENT") ∧
    runFS (Writers.mk (fun _ _ => "VTKDATA") (fun _ _ => "VTUDATA") (fun _ => "PVDDATA"))
        (fun _ => ParseResult.mk true true [ResultBlock.mk 0, ResultBlock.mk 1])
        (Converter.mk "a.frd" "a" "frd" "vtu" none) ""
        (runCore (Writers.mk (fun _ _ => "VTKDATA") (fun _ _ => "VTUDATA")
            (fun _ => "PVDDATA"))
          (fun _ => ParseResult.mk true true [ResultBlock.mk 0, ResultBlock.mk 1])
          (Converter.mk "a.frd" "a" "frd" "vtu" none) ""
          (fun s => if s = "a.frd" then some "FRDCONTENT" else none) "FRDCONTENT") =
      some (runCore (Writers.mk (fun _ _ => "VTKDATA") (fun _ _ => "VTUDATA")
          (fun _ => "PVDDATA"))
        (fun _ => ParseResult.mk true true [ResultBlock.mk 0, ResultBlock.mk 1])
        (Converter.mk "a.frd" "a" "frd" "vtu" none) ""
        (runCore (Writers.mk (fun _ _ => "VTKDATA") (fun _ _ => "VTUDATA")
            (fun _ => "PVDDATA"))
          (fun _ => ParseResult.mk true true [ResultBlock.mk 0, ResultBlock.mk 1])
          (Converter.mk "a.frd" "a" "frd" "vtu" none) ""
          (fun s => if s = "a.frd" then some "FRDCONTENT" else none) "FRDCONTENT")
        "FRDCONTENT") ∧
    runCore (Writers.mk (fun _ _ => "VTKDATA") (fun _ _ => "VTUDATA")
        (fun _ => "PVDDATA"))
      (fun _ => ParseResult.mk true true [ResultBlock.mk 0, ResultBlock.mk 1])
      (Converter.mk "a.frd" "a" "frd" "vtu" none) ""
      (runCore (Writers.mk (fun _ _ => "VTKDATA") (fun _ _ => "VTUDATA")
          (fun _ => "PVDDATA"))
        (fun _ => ParseResult.mk true true [ResultBlock.mk 0, ResultBlock.mk 1])
        (Converter.mk "a.frd" "a" "frd" "vtu" none) ""
        (fun s => if s = "a.frd" then some "FRDCONTENT" else none) "FRDCONTENT")
      "FRDCONTENT" "results/a.1.vtu" =
    runCore (Writers.mk (fun _ _ => "VTKDATA") (fun _ _ => "VTUDATA")
        (fun _ => "PVDDATA"))
      (fun _ => ParseResult.mk true true [ResultBlock.mk 0, ResultBlock.mk 1])
      (Converter.mk "a.frd" "a" "frd" "vtu" none) ""
      (fun s => if s = "a.frd" then some "FRDCONTENT" else none) "FRDCONTENT"
      "results/a.1.vtu" :=
  claim_C7 (Writers.mk (fun _ _ => "VTKDATA") (fun _ _ => "VTUDATA") (fun _ => "PVDDATA"))
    (fun _ => ParseResult.mk true true [ResultBlock.mk 0, ResultBlock.mk 1])
    "a.frd" "vtu" none "" (Converter.mk "a.frd" "a" "frd" "vtu" none)
    (fun s => if s = "a.frd" then some "FRDCONTENT" else none) "FRDCONTENT"
    rfl (by decide) rfl (by decide) "results/a.1.vtu"
